import Mathlib

/-!
Shallow embedding of the behavioral core of `fine-tunning.ipynb`
(repository `dvd42/fine-tunning-with-pytorch`): the epoch trainer
`train()`, the epoch validator `val()`, the training loop, and the final
`print(max(val_accuracy))` report.

Modelling choices
* Scalars measured by the notebook (losses, parameters, scores) are `ℚ`:
  exact arithmetic standing for the notebook's real-number computations.
* A `Batch` is the pair yielded by a `DataLoader` iteration: a list of
  (input, label) rows.  A `DataLoader` never yields an empty batch, so the
  row list carries a nonemptiness proof.  Inputs are opaque (`ℕ` tokens);
  labels are class indices (`ℕ`).
* The external deep-learning library (forward pass of the network, the
  cross-entropy criterion, the backpropagation engine) is abstracted as an
  environment `Env` of functions; the notebook's own code is embedded on
  top of it, line by line.
* The SGD optimizer is external library code configured by the notebook
  (`torch.optim.SGD(model.parameters(), lr=0.05, momentum=0.9)`); its
  update rule (momentum buffer then parameter step) is embedded concretely
  with the notebook's literals.
* Mutation (gradients, parameters, momentum buffers, the train/eval mode
  flag, the running statistics) becomes explicit state passing.
* Python raises `ZeroDivisionError` on the epoch-end divisions when
  `total == 0`, and `max` raises on an empty list, so those operations
  return `Option`.
* Each embedded step also emits an event trace recording, in program
  order, the effectful operations the notebook performs
  (`optimizer.zero_grad()`, the forward pass, the loss computation,
  `loss.backward()`, `optimizer.step()`, the statistics update).
-/

/-- One sample: an opaque input row together with its integer class label. -/
structure Sample where
  input : ℕ
  label : ℕ
deriving DecidableEq, Repr

/-- A batch as yielded by a `DataLoader` iteration (`for data, labels in
loader`): a nonempty list of rows.  `data.size(0)` and `labels.size(0)`
both equal `rows.length`. -/
structure Batch where
  rows : List Sample
  rows_ne : rows ≠ []
deriving DecidableEq, Repr

/-- `x.size(0)` = `y.size(0)`: the number of samples in the batch. -/
def Batch.size (b : Batch) : ℕ := b.rows.length

/-- The input rows of the batch (the tensor `x`). -/
def Batch.inputs (b : Batch) : List ℕ := b.rows.map Sample.input

/-- The label vector of the batch (the tensor `y`). -/
def Batch.labels (b : Batch) : List ℕ := b.rows.map Sample.label

theorem Batch.size_pos (b : Batch) : 0 < b.size := by
  cases hb : b.rows with
  | nil => exact absurd hb b.rows_ne
  | cons a l => simp [Batch.size, hb]

/-- The external library functions the notebook calls.  `fwd` is the
model's forward pass (`model(x)`), taking the train/eval mode flag, the
current parameter vector and the batch inputs, and returning one row of
class scores per sample; `crit` is `criterion(output, y)`
(cross-entropy); `grad` is the backpropagation engine behind
`loss.backward()`, producing the gradient of the batch loss with respect
to the parameters. -/
structure Env where
  fwd : Bool → List ℚ → List ℕ → List (List ℚ)
  crit : List (List ℚ) → List ℕ → ℚ
  grad : List ℚ → List ℕ → List ℕ → List ℚ

/-- Index of the first maximal score in a row: `output.max(1)[1]` for one
sample. -/
def argmaxIdx (scores : List ℚ) : ℕ :=
  match scores with
  | [] => 0
  | s :: rest =>
    let r := argmaxIdx rest
    if rest.getD r s ≤ s then 0 else r + 1

/-- `torch.sum(preds == y).item()`: how many predicted classes match the
labels. -/
def countCorrect (preds labels : List ℕ) : ℕ :=
  ((preds.zip labels).filter (fun p => p.1 == p.2)).length

/-- The mutable machine state the notebook's code touches: the model
parameters, the gradient slots `p.grad`, the optimizer's momentum
buffers, and the `model.train()` / `model.eval()` mode flag. -/
structure MState where
  params : List ℚ
  grads : List ℚ
  vel : List ℚ
  training : Bool
deriving DecidableEq, Repr

/-- The three per-epoch accumulators: `running_loss`, `running_corrects`,
`total`. -/
structure Stats where
  running_loss : ℚ
  running_corrects : ℕ
  total : ℕ
deriving DecidableEq, Repr

/-- `running_loss = 0; running_corrects = 0; total = 0`. -/
def Stats.init : Stats := ⟨0, 0, 0⟩

/-- The notebook's learning rate literal `lr = 0.05`. -/
def lr : ℚ := 1 / 20

/-- The notebook's momentum literal `momentum = 0.9`. -/
def momentum : ℚ := 9 / 10

/-- `optimizer.zero_grad()`: set every gradient slot to zero. -/
def zeroGradOf (ms : MState) : MState :=
  { ms with grads := ms.grads.map (fun _ => 0) }

/-- `loss.backward()`: the external engine computes the gradient of this
batch's loss and accumulates it onto the gradient slots. -/
def backwardOf (env : Env) (ms : MState) (b : Batch) : MState :=
  { ms with grads := ms.grads.zipWith (· + ·) (env.grad ms.params b.inputs b.labels) }

/-- `optimizer.step()` for `SGD(lr=0.05, momentum=0.9)`: the momentum
buffer becomes `momentum * buf + grad` and each parameter moves by
`-lr` times the buffer. -/
def sgdStep (ms : MState) : MState :=
  let buf := (ms.vel.zipWith (fun v g => momentum * v + g) ms.grads)
  { ms with
    params := ms.params.zipWith (fun p q => p - lr * q) buf
    vel := buf }

/-- The effectful operations of one loop body, in program order. -/
inductive Ev where
  | zeroGrad | forwardPass | lossComp | backward | optStep | statsUpd
deriving DecidableEq, Repr

/-- The body of the trainer's `for data, labels in train_loader` loop:
`optimizer.zero_grad()`, forward pass, loss, predictions, backward,
`optimizer.step()`, then the three statistics updates. -/
def trainBatchStep (env : Env) (ms : MState) (st : Stats) (b : Batch) :
    MState × Stats × List Ev :=
  let ms1 := zeroGradOf ms
  let out := env.fwd ms1.training ms1.params b.inputs
  let loss := env.crit out b.labels
  let preds := out.map argmaxIdx
  let ms2 := backwardOf env ms1 b
  let ms3 := sgdStep ms2
  let st1 : Stats :=
    { running_loss := st.running_loss + loss * (b.size : ℚ)
      running_corrects := st.running_corrects + countCorrect preds b.labels
      total := st.total + b.size }
  (ms3, st1, [Ev.zeroGrad, Ev.forwardPass, Ev.lossComp, Ev.backward, Ev.optStep, Ev.statsUpd])

/-- The trainer's loop over the whole batch sequence, threading state and
accumulating the event trace. -/
def trainBatches (env : Env) (ms : MState) (st : Stats) :
    List Batch → MState × Stats × List Ev
  | [] => (ms, st, [])
  | b :: bs =>
    let r := trainBatchStep env ms st b
    let rest := trainBatches env r.1 r.2.1 bs
    (rest.1, rest.2.1, r.2.2 ++ rest.2.2)

/-- Epoch-end reduction: `running_loss / total` and
`running_corrects / total`.  Python's float division raises
`ZeroDivisionError` when `total == 0`, hence `Option`. -/
def epochResult (st : Stats) : Option (ℚ × ℚ) :=
  if st.total = 0 then none
  else some (st.running_loss / (st.total : ℚ), (st.running_corrects : ℚ) / (st.total : ℚ))

/-- The notebook's `train()`: `model.train()`, zeroed accumulators, the
batch loop, then the epoch-end reduction.  Returns the final machine
state, the final accumulators, the `(epoch_loss, epoch_acc)` pair (absent
on `ZeroDivisionError`) and the event trace. -/
def train (env : Env) (ms : MState) (bs : List Batch) :
    MState × Stats × Option (ℚ × ℚ) × List Ev :=
  let r := trainBatches env { ms with training := true } Stats.init bs
  (r.1, r.2.1, epochResult r.2.1, r.2.2)

/-- The body of the validator's loop (inside `torch.no_grad()`): forward
pass, loss, predictions, then the statistics updates.  No gradient
computation, no optimizer step, no write to the machine state. -/
def valBatchStep (env : Env) (ms : MState) (st : Stats) (b : Batch) :
    Stats × List Ev :=
  let out := env.fwd ms.training ms.params b.inputs
  let loss := env.crit out b.labels
  let preds := out.map argmaxIdx
  let st1 : Stats :=
    { running_loss := st.running_loss + loss * (b.size : ℚ)
      running_corrects := st.running_corrects + countCorrect preds b.labels
      total := st.total + b.size }
  (st1, [Ev.forwardPass, Ev.lossComp, Ev.statsUpd])

/-- The validator's loop over the whole batch sequence. -/
def valBatches (env : Env) (ms : MState) (st : Stats) :
    List Batch → Stats × List Ev
  | [] => (st, [])
  | b :: bs =>
    let r := valBatchStep env ms st b
    let rest := valBatches env ms r.1 bs
    (rest.1, r.2 ++ rest.2)

/-- The notebook's `val()`: `model.eval()`, zeroed accumulators, the
no-grad batch loop, then the epoch-end reduction. -/
def val (env : Env) (ms : MState) (bs : List Batch) :
    MState × Stats × Option (ℚ × ℚ) × List Ev :=
  let ms1 := { ms with training := false }
  let r := valBatches env ms1 Stats.init bs
  (ms1, r.1, epochResult r.1, r.2)

/-- The sum of the batch sizes of a batch sequence. -/
def sumSizes (bs : List Batch) : ℕ := (bs.map Batch.size).sum

/-- The final machine state after `train()`. -/
def trainMS (env : Env) (ms : MState) (bs : List Batch) : MState :=
  (train env ms bs).1

/-- The final accumulators after `train()`. -/
def trainStats (env : Env) (ms : MState) (bs : List Batch) : Stats :=
  (train env ms bs).2.1

/-- The `(epoch_loss, epoch_acc)` pair returned by `train()`. -/
def trainResult (env : Env) (ms : MState) (bs : List Batch) : Option (ℚ × ℚ) :=
  (train env ms bs).2.2.1

/-- The event trace of one `train()` epoch. -/
def trainTrace (env : Env) (ms : MState) (bs : List Batch) : List Ev :=
  (train env ms bs).2.2.2

/-- The final machine state after `val()`. -/
def valMS (env : Env) (ms : MState) (bs : List Batch) : MState :=
  (val env ms bs).1

/-- The final accumulators after `val()`. -/
def valStats (env : Env) (ms : MState) (bs : List Batch) : Stats :=
  (val env ms bs).2.1

/-- The `(epoch_loss, epoch_acc)` pair returned by `val()`. -/
def valResult (env : Env) (ms : MState) (bs : List Batch) : Option (ℚ × ℚ) :=
  (val env ms bs).2.2.1

/-- The event trace of one `val()` epoch. -/
def valTrace (env : Env) (ms : MState) (bs : List Batch) : List Ev :=
  (val env ms bs).2.2.2

/-- The four history lists of the training loop:
`train_loss`, `train_accuracy`, `val_loss`, `val_accuracy`. -/
structure Hist where
  train_loss : List ℚ
  train_accuracy : List ℚ
  val_loss : List ℚ
  val_accuracy : List ℚ
deriving DecidableEq, Repr

/-- The four empty lists the notebook creates before the loop. -/
def Hist.empty : Hist := ⟨[], [], [], []⟩

/-- One iteration of the training loop: `loss, acc = train()`, append to
the train histories, `loss, acc = val()`, append to the validation
histories.  `none` models an uncaught `ZeroDivisionError` inside
`train()`/`val()` aborting the run (the plotting call is an external
side effect with no influence on the numerical state and is omitted). -/
def epochBody (env : Env) (tb vb : List Batch) (s : MState × Hist) :
    Option (MState × Hist) :=
  let rt := train env s.1 tb
  match rt.2.2.1 with
  | none => none
  | some (l, a) =>
    let rv := val env rt.1 vb
    match rv.2.2.1 with
    | none => none
    | some (lv, av) =>
      some (rv.1,
        { train_loss := s.2.train_loss ++ [l]
          train_accuracy := s.2.train_accuracy ++ [a]
          val_loss := s.2.val_loss ++ [lv]
          val_accuracy := s.2.val_accuracy ++ [av] })

/-- `for epoch in range(n)` over the loop body, strictly sequential. -/
def runLoop (env : Env) (tb vb : List Batch) : ℕ → MState × Hist → Option (MState × Hist)
  | 0, s => some s
  | n + 1, s => (epochBody env tb vb s).bind (runLoop env tb vb n)

/-- The notebook's epoch-count literal `epochs = 50`. -/
def epochs : ℕ := 50

/-- Python's `max` over a list: the largest element, raising (hence
`none`) on an empty list.  Models `print(max(val_accuracy))`. -/
def pyMax : List ℚ → Option ℚ
  | [] => none
  | x :: xs =>
    match pyMax xs with
    | none => some x
    | some m => some (max x m)

/-- The external library calls, fallible: any of them may raise (missing
data, device unavailability, shape mismatch, numerical faults), modelled
as `Except` with the raised exception as a string. -/
structure EnvE where
  fwd : Bool → List ℚ → List ℕ → Except String (List (List ℚ))
  crit : List (List ℚ) → List ℕ → Except String ℚ
  grad : List ℚ → List ℕ → List ℕ → Except String (List ℚ)

/-- The trainer's loop body over fallible library calls: the notebook has
no `try/except`, so the first raised exception aborts the body. -/
def trainBatchStepE (env : EnvE) (ms : MState) (st : Stats) (b : Batch) :
    Except String (MState × Stats) := do
  let ms1 := zeroGradOf ms
  let out ← env.fwd ms1.training ms1.params b.inputs
  let loss ← env.crit out b.labels
  let preds := out.map argmaxIdx
  let g ← env.grad ms1.params b.inputs b.labels
  let ms2 := { ms1 with grads := ms1.grads.zipWith (· + ·) g }
  let ms3 := sgdStep ms2
  pure (ms3,
    { running_loss := st.running_loss + loss * (b.size : ℚ)
      running_corrects := st.running_corrects + countCorrect preds b.labels
      total := st.total + b.size })

/-- The trainer's batch loop over fallible library calls. -/
def trainBatchesE (env : EnvE) (ms : MState) (st : Stats) :
    List Batch → Except String (MState × Stats)
  | [] => .ok (ms, st)
  | b :: bs => do
    let r ← trainBatchStepE env ms st b
    trainBatchesE env r.1 r.2 bs

/-- `train()` over fallible library calls. -/
def trainE (env : EnvE) (ms : MState) (bs : List Batch) :
    Except String (MState × Option (ℚ × ℚ)) := do
  let r ← trainBatchesE env { ms with training := true } Stats.init bs
  pure (r.1, epochResult r.2)

/-- The validator's loop body over fallible library calls. -/
def valBatchStepE (env : EnvE) (ms : MState) (st : Stats) (b : Batch) :
    Except String Stats := do
  let out ← env.fwd ms.training ms.params b.inputs
  let loss ← env.crit out b.labels
  let preds := out.map argmaxIdx
  pure
    { running_loss := st.running_loss + loss * (b.size : ℚ)
      running_corrects := st.running_corrects + countCorrect preds b.labels
      total := st.total + b.size }

/-- The validator's batch loop over fallible library calls. -/
def valBatchesE (env : EnvE) (ms : MState) (st : Stats) :
    List Batch → Except String Stats
  | [] => .ok st
  | b :: bs => do
    let r ← valBatchStepE env ms st b
    valBatchesE env ms r bs

/-- `val()` over fallible library calls. -/
def valE (env : EnvE) (ms : MState) (bs : List Batch) :
    Except String (MState × Option (ℚ × ℚ)) := do
  let ms1 := { ms with training := false }
  let r ← valBatchesE env ms1 Stats.init bs
  pure (ms1, epochResult r)

/-- One training-loop iteration over fallible library calls; a
`ZeroDivisionError` at epoch end is itself an uncaught exception. -/
def epochBodyE (env : EnvE) (tb vb : List Batch) (s : MState × Hist) :
    Except String (MState × Hist) := do
  let rt ← trainE env s.1 tb
  match rt.2 with
  | none => Except.error "ZeroDivisionError"
  | some (l, a) => do
    let rv ← valE env rt.1 vb
    match rv.2 with
    | none => Except.error "ZeroDivisionError"
    | some (lv, av) =>
      pure (rv.1,
        { train_loss := s.2.train_loss ++ [l]
          train_accuracy := s.2.train_accuracy ++ [a]
          val_loss := s.2.val_loss ++ [lv]
          val_accuracy := s.2.val_accuracy ++ [av] })

/-- The training loop over fallible library calls: no retry or recovery,
the first exception propagates. -/
def runLoopE (env : EnvE) (tb vb : List Batch) :
    ℕ → MState × Hist → Except String (MState × Hist)
  | 0, s => .ok s
  | n + 1, s => (epochBodyE env tb vb s).bind (runLoopE env tb vb n)

/-- A concrete environment used to instantiate theorems: constant scores,
constant loss, constant unit gradient. -/
def envW : Env :=
  { fwd := fun _ _ xs => xs.map (fun _ => [1, 0])
    crit := fun _ _ => 2
    grad := fun p _ _ => p.map (fun _ => 1) }

/-- A concrete machine state with one parameter. -/
def msW : MState := ⟨[0], [0], [0], false⟩

/-- A concrete one-sample batch with label 1. -/
def bW : Batch := ⟨[⟨0, 1⟩], by decide⟩

theorem Batch.labels_length (b : Batch) : b.labels.length = b.size := by
  simp [Batch.labels, Batch.size]

theorem countCorrect_le (preds labels : List ℕ) :
    countCorrect preds labels ≤ labels.length := by
  calc countCorrect preds labels ≤ (preds.zip labels).length :=
        List.length_filter_le _ _
    _ ≤ labels.length := by rw [List.length_zip]; omega

theorem sumSizes_pos {bs : List Batch} (h : bs ≠ []) : 0 < sumSizes bs := by
  cases bs with
  | nil => exact absurd rfl h
  | cons b l =>
    have := b.size_pos
    simp only [sumSizes, List.map_cons, List.sum_cons]
    omega

theorem epochResult_of_total_ne {st : Stats} (h : st.total ≠ 0) :
    epochResult st =
      some (st.running_loss / (st.total : ℚ), (st.running_corrects : ℚ) / (st.total : ℚ)) := by
  simp [epochResult, h]

theorem trainBatchStep_stats (env : Env) (ms : MState) (st : Stats) (b : Batch) :
    (trainBatchStep env ms st b).2.1.total = st.total + b.size ∧
    (trainBatchStep env ms st b).2.1.running_corrects ≤ st.running_corrects + b.size := by
  refine ⟨rfl, ?_⟩
  have h := countCorrect_le ((env.fwd (zeroGradOf ms).training (zeroGradOf ms).params
    b.inputs).map argmaxIdx) b.labels
  rw [Batch.labels_length] at h
  show st.running_corrects + _ ≤ _
  omega

theorem trainBatches_total (env : Env) (bs : List Batch) : ∀ ms st,
    (trainBatches env ms st bs).2.1.total = st.total + sumSizes bs := by
  induction bs with
  | nil => intro ms st; simp [trainBatches, sumSizes]
  | cons b l ih =>
    intro ms st
    simp only [trainBatches]
    rw [ih]
    show (trainBatchStep env ms st b).2.1.total + sumSizes l = _
    rw [(trainBatchStep_stats env ms st b).1]
    simp only [sumSizes, List.map_cons, List.sum_cons]
    omega

theorem valBatches_total (env : Env) (ms : MState) (bs : List Batch) : ∀ st,
    (valBatches env ms st bs).1.total = st.total + sumSizes bs := by
  induction bs with
  | nil => intro st; simp [valBatches, sumSizes]
  | cons b l ih =>
    intro st
    simp only [valBatches]
    rw [ih]
    show (valBatchStep env ms st b).1.total + sumSizes l = _
    show st.total + b.size + sumSizes l = _
    simp only [sumSizes, List.map_cons, List.sum_cons]
    omega

theorem trainBatches_corrects_le (env : Env) (bs : List Batch) : ∀ ms st,
    st.running_corrects ≤ st.total →
    (trainBatches env ms st bs).2.1.running_corrects ≤ (trainBatches env ms st bs).2.1.total := by
  induction bs with
  | nil => intro ms st h; simpa [trainBatches] using h
  | cons b l ih =>
    intro ms st h
    simp only [trainBatches]
    apply ih
    have h1 := (trainBatchStep_stats env ms st b).1
    have h2 := (trainBatchStep_stats env ms st b).2
    omega

theorem valBatches_corrects_le (env : Env) (ms : MState) (bs : List Batch) : ∀ st,
    st.running_corrects ≤ st.total →
    (valBatches env ms st bs).1.running_corrects ≤ (valBatches env ms st bs).1.total := by
  induction bs with
  | nil => intro st h; simpa [valBatches] using h
  | cons b l ih =>
    intro st h
    simp only [valBatches]
    apply ih
    have h1 := countCorrect_le ((env.fwd ms.training ms.params b.inputs).map argmaxIdx) b.labels
    rw [Batch.labels_length] at h1
    show st.running_corrects + _ ≤ st.total + b.size
    omega

theorem trainStats_total (env : Env) (ms : MState) (bs : List Batch) :
    (trainStats env ms bs).total = sumSizes bs := by
  show (trainBatches env _ Stats.init bs).2.1.total = _
  rw [trainBatches_total]
  simp [Stats.init]

theorem valStats_total (env : Env) (ms : MState) (bs : List Batch) :
    (valStats env ms bs).total = sumSizes bs := by
  show (valBatches env _ Stats.init bs).1.total = _
  rw [valBatches_total]
  simp [Stats.init]

/-- C1: in both `train()` and `val()`, after any prefix of the epoch's
batches the `total` accumulator equals the sum of the batch sizes seen so
far, and the `(epoch_loss, epoch_acc)` pair returned at epoch end is
exactly `(running_loss / total, running_corrects / total)` on the final
accumulator values. -/
theorem claim_C1 (env : Env) (ms : MState) (bs : List Batch) (hbs : bs ≠ []) :
    (∀ k, (trainStats env ms (bs.take k)).total = sumSizes (bs.take k)) ∧
    (∀ k, (valStats env ms (bs.take k)).total = sumSizes (bs.take k)) ∧
    trainResult env ms bs =
      some ((trainStats env ms bs).running_loss / ((trainStats env ms bs).total : ℚ),
            ((trainStats env ms bs).running_corrects : ℚ) / ((trainStats env ms bs).total : ℚ)) ∧
    valResult env ms bs =
      some ((valStats env ms bs).running_loss / ((valStats env ms bs).total : ℚ),
            ((valStats env ms bs).running_corrects : ℚ) / ((valStats env ms bs).total : ℚ)) := by
  have hpos := sumSizes_pos hbs
  have htr : (trainStats env ms bs).total ≠ 0 := by rw [trainStats_total]; omega
  have hvl : (valStats env ms bs).total ≠ 0 := by rw [valStats_total]; omega
  refine ⟨?_, ?_, ?_, ?_⟩
  · intro k; rw [trainStats_total]
  · intro k; rw [valStats_total]
  · show epochResult (trainStats env ms bs) = _
    exact epochResult_of_total_ne htr
  · show epochResult (valStats env ms bs) = _
    exact epochResult_of_total_ne hvl

/-- Witness for C1 at a concrete input. -/
theorem claim_C1_witness :
    ([bW] : List Batch) ≠ [] ∧
    ((∀ k, (trainStats envW msW ([bW].take k)).total = sumSizes ([bW].take k)) ∧
     (∀ k, (valStats envW msW ([bW].take k)).total = sumSizes ([bW].take k)) ∧
     trainResult envW msW [bW] =
       some ((trainStats envW msW [bW]).running_loss / ((trainStats envW msW [bW]).total : ℚ),
             ((trainStats envW msW [bW]).running_corrects : ℚ) /
               ((trainStats envW msW [bW]).total : ℚ)) ∧
     valResult envW msW [bW] =
       some ((valStats envW msW [bW]).running_loss / ((valStats envW msW [bW]).total : ℚ),
             ((valStats envW msW [bW]).running_corrects : ℚ) /
               ((valStats envW msW [bW]).total : ℚ))) :=
  ⟨by decide, claim_C1 envW msW [bW] (by decide)⟩

theorem trainStats_corrects_le (env : Env) (ms : MState) (bs : List Batch) :
    (trainStats env ms bs).running_corrects ≤ (trainStats env ms bs).total := by
  show (trainBatches env _ Stats.init bs).2.1.running_corrects ≤ _
  exact trainBatches_corrects_le env bs _ Stats.init (Nat.le_refl 0)

theorem valStats_corrects_le (env : Env) (ms : MState) (bs : List Batch) :
    (valStats env ms bs).running_corrects ≤ (valStats env ms bs).total := by
  show (valBatches env _ Stats.init bs).1.running_corrects ≤ _
  exact valBatches_corrects_le env _ bs Stats.init (Nat.le_refl 0)

theorem acc_mem_unit_of_stats {st : Stats} {l a : ℚ}
    (hle : st.running_corrects ≤ st.total)
    (h : epochResult st = some (l, a)) : 0 ≤ a ∧ a ≤ 1 := by
  by_cases h0 : st.total = 0
  · simp [epochResult, h0] at h
  · rw [epochResult_of_total_ne h0] at h
    have ha : a = (st.running_corrects : ℚ) / (st.total : ℚ) := by
      have := (Option.some.injEq _ _).mp h
      exact (congrArg Prod.snd this).symm
    have hpos : (0 : ℚ) < (st.total : ℚ) := by
      exact_mod_cast Nat.pos_of_ne_zero h0
    constructor
    · rw [ha]; exact div_nonneg (Nat.cast_nonneg _) (Nat.cast_nonneg _)
    · rw [ha]
      exact (div_le_one hpos).mpr (by exact_mod_cast hle)

/-- C4: for a non-empty batch sequence, the accuracy returned by both
`train()` and `val()` lies in `[0, 1]`; the underlying reason also holds:
each batch adds at most its own size to `running_corrects` while adding
exactly its size to `total`. -/
theorem claim_C4 (env : Env) (ms : MState) (bs : List Batch) (_hbs : bs ≠ []) :
    (∀ st b, (trainBatchStep env ms st b).2.1.running_corrects ≤ st.running_corrects + b.size ∧
      (trainBatchStep env ms st b).2.1.total = st.total + b.size) ∧
    (∀ l a, trainResult env ms bs = some (l, a) → 0 ≤ a ∧ a ≤ 1) ∧
    (∀ l a, valResult env ms bs = some (l, a) → 0 ≤ a ∧ a ≤ 1) := by
  refine ⟨fun st b => ⟨(trainBatchStep_stats env ms st b).2, (trainBatchStep_stats env ms st b).1⟩,
    fun l a h => ?_, fun l a h => ?_⟩
  · exact acc_mem_unit_of_stats (trainStats_corrects_le env ms bs) h
  · exact acc_mem_unit_of_stats (valStats_corrects_le env ms bs) h

/-- Witness for C4 at a concrete input. -/
theorem claim_C4_witness :
    ([bW] : List Batch) ≠ [] ∧
    ((∀ st b, (trainBatchStep envW msW st b).2.1.running_corrects ≤ st.running_corrects + b.size ∧
       (trainBatchStep envW msW st b).2.1.total = st.total + b.size) ∧
     (∀ l a, trainResult envW msW [bW] = some (l, a) → 0 ≤ a ∧ a ≤ 1) ∧
     (∀ l a, valResult envW msW [bW] = some (l, a) → 0 ≤ a ∧ a ≤ 1)) :=
  ⟨by decide, claim_C4 envW msW [bW] (by decide)⟩

/-- C9: on an empty batch sequence the cumulative sample count is zero and
the epoch-end divisions fail (no value is returned); on any non-empty
batch sequence the count is strictly positive and both `train()` and
`val()` return a value. -/
theorem claim_C9 (env : Env) (ms : MState) (bs : List Batch) (hbs : bs ≠ []) :
    (trainStats env ms []).total = 0 ∧ trainResult env ms [] = none ∧
    (valStats env ms []).total = 0 ∧ valResult env ms [] = none ∧
    0 < (trainStats env ms bs).total ∧ (trainResult env ms bs).isSome ∧
    0 < (valStats env ms bs).total ∧ (valResult env ms bs).isSome := by
  have hpos := sumSizes_pos hbs
  have htr : (trainStats env ms bs).total ≠ 0 := by rw [trainStats_total]; omega
  have hvl : (valStats env ms bs).total ≠ 0 := by rw [valStats_total]; omega
  refine ⟨rfl, rfl, rfl, rfl, ?_, ?_, ?_, ?_⟩
  · rw [trainStats_total]; omega
  · show (epochResult (trainStats env ms bs)).isSome
    rw [epochResult_of_total_ne htr]; rfl
  · rw [valStats_total]; omega
  · show (epochResult (valStats env ms bs)).isSome
    rw [epochResult_of_total_ne hvl]; rfl

/-- Witness for C9 at a concrete input. -/
theorem claim_C9_witness :
    ([bW] : List Batch) ≠ [] ∧
    ((trainStats envW msW []).total = 0 ∧ trainResult envW msW [] = none ∧
     (valStats envW msW []).total = 0 ∧ valResult envW msW [] = none ∧
     0 < (trainStats envW msW [bW]).total ∧ (trainResult envW msW [bW]).isSome ∧
     0 < (valStats envW msW [bW]).total ∧ (valResult envW msW [bW]).isSome) :=
  ⟨by decide, claim_C9 envW msW [bW] (by decide)⟩

/-- The per-batch event sequence of the trainer, in the order the
notebook's loop body performs the operations. -/
def trainEvs : List Ev :=
  [Ev.zeroGrad, Ev.forwardPass, Ev.lossComp, Ev.backward, Ev.optStep, Ev.statsUpd]

/-- The per-batch event sequence of the validator. -/
def valEvs : List Ev := [Ev.forwardPass, Ev.lossComp, Ev.statsUpd]

theorem trainBatches_trace (env : Env) (bs : List Batch) : ∀ ms st,
    (trainBatches env ms st bs).2.2 = bs.flatMap (fun _ => trainEvs) := by
  induction bs with
  | nil => intro ms st; rfl
  | cons b l ih =>
    intro ms st
    simp only [trainBatches, List.flatMap_cons]
    rw [ih]
    rfl

theorem valBatches_trace (env : Env) (ms : MState) (bs : List Batch) : ∀ st,
    (valBatches env ms st bs).2 = bs.flatMap (fun _ => valEvs) := by
  induction bs with
  | nil => intro st; rfl
  | cons b l ih =>
    intro st
    simp only [valBatches, List.flatMap_cons]
    rw [ih]
    rfl

/-- C3: a validation epoch performs no gradient computation and no
optimizer step (neither event occurs in its trace, nor even a gradient
clear), and leaves the parameters — and the gradient and momentum
buffers — exactly as they were. -/
theorem claim_C3 (env : Env) (ms : MState) (bs : List Batch) :
    (valMS env ms bs).params = ms.params ∧
    (valMS env ms bs).grads = ms.grads ∧
    (valMS env ms bs).vel = ms.vel ∧
    Ev.backward ∉ valTrace env ms bs ∧
    Ev.optStep ∉ valTrace env ms bs ∧
    Ev.zeroGrad ∉ valTrace env ms bs := by
  refine ⟨rfl, rfl, rfl, ?_, ?_, ?_⟩ <;>
  · show _ ∉ (valBatches env _ Stats.init bs).2
    rw [valBatches_trace]
    simp [List.mem_flatMap, valEvs]

/-- C5: one `train()` epoch emits, for each batch in order, exactly the
event sequence clear-gradients, forward pass, loss, backward, optimizer
step, statistics update; and each batch step moves the parameters by one
SGD step on the gradients of that batch (cleared first, then
accumulated), adds `loss * batch_size` to `running_loss`, adds the number
of arg-max predictions matching the labels to `running_corrects`, and
adds the batch size to `total`, with loss and predictions computed from
the forward output at the pre-step parameters. -/
theorem claim_C5 (env : Env) (ms : MState) (bs : List Batch) :
    trainTrace env ms bs = bs.flatMap (fun _ => trainEvs) ∧
    (∀ ms0 st b,
      (trainBatchStep env ms0 st b).2.2 = trainEvs ∧
      (trainBatchStep env ms0 st b).1 = sgdStep (backwardOf env (zeroGradOf ms0) b) ∧
      (trainBatchStep env ms0 st b).2.1.running_loss =
        st.running_loss +
          env.crit (env.fwd ms0.training ms0.params b.inputs) b.labels * (b.size : ℚ) ∧
      (trainBatchStep env ms0 st b).2.1.running_corrects =
        st.running_corrects +
          countCorrect ((env.fwd ms0.training ms0.params b.inputs).map argmaxIdx) b.labels ∧
      (trainBatchStep env ms0 st b).2.1.total = st.total + b.size) := by
  refine ⟨?_, fun ms0 st b => ⟨rfl, rfl, rfl, rfl, rfl⟩⟩
  show (trainBatches env _ Stats.init bs).2.2 = _
  rw [trainBatches_trace]

theorem pyMax_spec {l : List ℚ} (h : l ≠ []) :
    ∃ m, pyMax l = some m ∧ m ∈ l ∧ ∀ x ∈ l, x ≤ m := by
  induction l with
  | nil => exact absurd rfl h
  | cons a t ih =>
    cases t with
    | nil => exact ⟨a, rfl, by simp, by simp⟩
    | cons b t2 =>
      obtain ⟨m, hm, hmem, hle⟩ := ih (by simp)
      refine ⟨max a m, ?_, ?_, ?_⟩
      · show (match pyMax (b :: t2) with
          | none => some a
          | some m => some (max a m)) = _
        rw [hm]
      · rcases max_choice a m with hc | hc
        · rw [hc]; exact List.mem_cons_self a _
        · rw [hc]; exact List.mem_cons_of_mem a hmem
      · intro x hx
        rcases List.mem_cons.mp hx with rfl | hx2
        · exact le_max_left _ _
        · exact le_trans (hle x hx2) (le_max_right _ _)

theorem runLoop_succ (env : Env) (tb vb : List Batch) (n : ℕ) : ∀ s,
    runLoop env tb vb (n + 1) s = (runLoop env tb vb n s).bind (epochBody env tb vb) := by
  induction n with
  | zero =>
    intro s
    show (epochBody env tb vb s).bind (runLoop env tb vb 0) = (some s).bind _
    cases h : epochBody env tb vb s <;> simp [runLoop, h]
  | succ n ih =>
    intro s
    show (epochBody env tb vb s).bind (runLoop env tb vb (n + 1)) = _
    cases h : epochBody env tb vb s with
    | none => simp [runLoop, h]
    | some t =>
      simp only [Option.bind_some, Option.some_bind] at *
      rw [ih t]
      show _ = ((epochBody env tb vb s).bind (runLoop env tb vb n)).bind _
      rw [h]
      rfl

theorem epochBody_eq_some {env : Env} {tb vb : List Batch} {s s' : MState × Hist}
    (h : epochBody env tb vb s = some s') :
    ∃ l a lv av,
      trainResult env s.1 tb = some (l, a) ∧
      valResult env (trainMS env s.1 tb) vb = some (lv, av) ∧
      s'.1 = valMS env (trainMS env s.1 tb) vb ∧
      s'.2.train_loss = s.2.train_loss ++ [l] ∧
      s'.2.train_accuracy = s.2.train_accuracy ++ [a] ∧
      s'.2.val_loss = s.2.val_loss ++ [lv] ∧
      s'.2.val_accuracy = s.2.val_accuracy ++ [av] := by
  simp only [epochBody] at h
  split at h
  · exact Option.noConfusion h
  next l a heq =>
    split at h
    · exact Option.noConfusion h
    next lv av heq2 =>
      obtain rfl := (Option.some.injEq _ _).mp h
      exact ⟨l, a, lv, av, heq, heq2, rfl, rfl, rfl, rfl, rfl⟩

theorem runLoop_hist_lengths (env : Env) (tb vb : List Batch) : ∀ n,
    ∀ s s', runLoop env tb vb n s = some s' →
      s'.2.train_loss.length = s.2.train_loss.length + n ∧
      s'.2.train_accuracy.length = s.2.train_accuracy.length + n ∧
      s'.2.val_loss.length = s.2.val_loss.length + n ∧
      s'.2.val_accuracy.length = s.2.val_accuracy.length + n := by
  intro n
  induction n with
  | zero =>
    intro s s' h
    obtain rfl := (Option.some.injEq _ _).mp h
    simp
  | succ n ih =>
    intro s s' h
    rw [runLoop_succ] at h
    obtain ⟨t, ht, hb⟩ := Option.bind_eq_some.mp h
    obtain ⟨l, a, lv, av, _, _, _, h4, h5, h6, h7⟩ := epochBody_eq_some hb
    obtain ⟨k1, k2, k3, k4⟩ := ih s t ht
    rw [h4, h5, h6, h7]
    simp only [List.length_append, List.length_cons, List.length_nil]
    omega

/-- C6: the training loop is a strictly sequential iteration of one fixed
epoch body — the state after `n+1` epochs is the state after `n` epochs
followed by exactly one body application — and after `n` completed epochs
each of the four history lists has exactly `n` elements; each completed
epoch calls the trainer, then the validator on the trainer's resulting
model state, and appends exactly one element (the corresponding returned
value) to each of the four lists, which are touched in no other way. -/
theorem claim_C6 (env : Env) (tb vb : List Batch) (ms0 : MState) (n : ℕ)
    (s : MState × Hist) (h : runLoop env tb vb n (ms0, Hist.empty) = some s) :
    runLoop env tb vb (n + 1) (ms0, Hist.empty) =
      (runLoop env tb vb n (ms0, Hist.empty)).bind (epochBody env tb vb) ∧
    s.2.train_loss.length = n ∧ s.2.train_accuracy.length = n ∧
    s.2.val_loss.length = n ∧ s.2.val_accuracy.length = n ∧
    (∀ s', epochBody env tb vb s = some s' →
      ∃ l a lv av,
        trainResult env s.1 tb = some (l, a) ∧
        valResult env (trainMS env s.1 tb) vb = some (lv, av) ∧
        s'.1 = valMS env (trainMS env s.1 tb) vb ∧
        s'.2.train_loss = s.2.train_loss ++ [l] ∧
        s'.2.train_accuracy = s.2.train_accuracy ++ [a] ∧
        s'.2.val_loss = s.2.val_loss ++ [lv] ∧
        s'.2.val_accuracy = s.2.val_accuracy ++ [av]) := by
  obtain ⟨k1, k2, k3, k4⟩ := runLoop_hist_lengths env tb vb n _ _ h
  refine ⟨runLoop_succ env tb vb n _, by simpa [Hist.empty] using k1,
    by simpa [Hist.empty] using k2, by simpa [Hist.empty] using k3,
    by simpa [Hist.empty] using k4, fun s' h' => epochBody_eq_some h'⟩

/-- The loop state reached from `(msW, Hist.empty)` after one epoch of
one-batch training and validation under `envW`. -/
def sW : MState × Hist :=
  (⟨[-(1 / 20)], [1], [1], false⟩, ⟨[2], [0], [2], [0]⟩)

theorem runW1 : runLoop envW [bW] [bW] 1 (msW, Hist.empty) = some sW := by
  simp only [runLoop, epochBody, train, val, trainBatches, trainBatchStep, valBatches,
    valBatchStep, zeroGradOf, backwardOf, sgdStep, epochResult, Stats.init, envW, msW, bW, sW,
    Hist.empty, countCorrect, argmaxIdx, Batch.size, Batch.inputs, Batch.labels, lr, momentum]
  norm_num [Option.bind, argmaxIdx, List.getD, countCorrect]

/-- Witness for C6 at a concrete input. -/
theorem claim_C6_witness :
    runLoop envW [bW] [bW] 1 (msW, Hist.empty) = some sW ∧
    (runLoop envW [bW] [bW] (1 + 1) (msW, Hist.empty) =
       (runLoop envW [bW] [bW] 1 (msW, Hist.empty)).bind (epochBody envW [bW] [bW]) ∧
     sW.2.train_loss.length = 1 ∧ sW.2.train_accuracy.length = 1 ∧
     sW.2.val_loss.length = 1 ∧ sW.2.val_accuracy.length = 1 ∧
     (∀ s', epochBody envW [bW] [bW] sW = some s' →
       ∃ l a lv av,
         trainResult envW sW.1 [bW] = some (l, a) ∧
         valResult envW (trainMS envW sW.1 [bW]) [bW] = some (lv, av) ∧
         s'.1 = valMS envW (trainMS envW sW.1 [bW]) [bW] ∧
         s'.2.train_loss = sW.2.train_loss ++ [l] ∧
         s'.2.train_accuracy = sW.2.train_accuracy ++ [a] ∧
         s'.2.val_loss = sW.2.val_loss ++ [lv] ∧
         s'.2.val_accuracy = sW.2.val_accuracy ++ [av])) :=
  ⟨runW1, claim_C6 envW [bW] [bW] msW 1 sW runW1⟩

/-- C2: the value the notebook reports at the end
(`print(max(val_accuracy))`) is the maximum element of the
validation-accuracy history built by the loop — it is in the history and
bounds every element of it — and on the literal fixture sequence
`[0.5, 0.72, 0.61]` the reported value is `0.72`. -/
theorem claim_C2 (env : Env) (tb vb : List Batch) (ms0 : MState) (n : ℕ)
    (s : MState × Hist) (_h : runLoop env tb vb n (ms0, Hist.empty) = some s)
    (hne : s.2.val_accuracy ≠ []) :
    (∃ m, pyMax s.2.val_accuracy = some m ∧ m ∈ s.2.val_accuracy ∧
      ∀ x ∈ s.2.val_accuracy, x ≤ m) ∧
    pyMax [1 / 2, 18 / 25, 61 / 100] = some (18 / 25) :=
  ⟨pyMax_spec hne, by norm_num [pyMax]⟩

/-- Witness for C2 at a concrete input. -/
theorem claim_C2_witness :
    (runLoop envW [bW] [bW] 1 (msW, Hist.empty) = some sW ∧ sW.2.val_accuracy ≠ []) ∧
    ((∃ m, pyMax sW.2.val_accuracy = some m ∧ m ∈ sW.2.val_accuracy ∧
       ∀ x ∈ sW.2.val_accuracy, x ≤ m) ∧
     pyMax [1 / 2, 18 / 25, 61 / 100] = some (18 / 25)) :=
  ⟨⟨runW1, by decide⟩, claim_C2 envW [bW] [bW] msW 1 sW runW1 (by decide)⟩

/-- C10: with an epoch count of 0 the loop leaves `val_accuracy` empty and
`max` fails on it; a run with the notebook's `epochs = 50` produces a
50-element `val_accuracy`, on which `max` succeeds. -/
theorem claim_C10 (env : Env) (tb vb : List Batch) (ms0 : MState)
    (s : MState × Hist) (h : runLoop env tb vb epochs (ms0, Hist.empty) = some s) :
    runLoop env tb vb 0 (ms0, Hist.empty) = some (ms0, Hist.empty) ∧
    Hist.empty.val_accuracy = [] ∧
    pyMax Hist.empty.val_accuracy = none ∧
    s.2.val_accuracy.length = 50 ∧
    (pyMax s.2.val_accuracy).isSome := by
  obtain ⟨-, -, -, k4⟩ := runLoop_hist_lengths env tb vb epochs _ _ h
  have hlen : s.2.val_accuracy.length = 50 := by
    simpa [Hist.empty, epochs] using k4
  have hne : s.2.val_accuracy ≠ [] := by
    intro hnil
    rw [hnil] at hlen
    simp at hlen
  obtain ⟨m, hm, -, -⟩ := pyMax_spec hne
  exact ⟨rfl, rfl, rfl, hlen, by rw [hm]; rfl⟩

/-- A machine state with an empty parameter vector, under which the loop
dynamics are stationary. -/
def msE : MState := ⟨[], [], [], false⟩

/-- The loop state reached from `(msE, Hist.empty)` after the notebook's
50 epochs under `envW`. -/
def s50 : MState × Hist :=
  (⟨[], [], [], false⟩,
   ⟨List.replicate 50 2, List.replicate 50 0, List.replicate 50 2, List.replicate 50 0⟩)

theorem epochBodyW (h : Hist) :
    epochBody envW [bW] [bW] (msE, h) =
      some (msE, ⟨h.train_loss ++ [2], h.train_accuracy ++ [0],
                  h.val_loss ++ [2], h.val_accuracy ++ [0]⟩) := by
  simp only [epochBody, train, val, trainBatches, trainBatchStep, valBatches, valBatchStep,
    zeroGradOf, backwardOf, sgdStep, epochResult, Stats.init, envW, msE, bW, countCorrect,
    argmaxIdx, Batch.size, Batch.inputs, Batch.labels, lr, momentum]
  norm_num [Option.bind, argmaxIdx, List.getD, countCorrect]

theorem runLoopW (n : ℕ) :
    runLoop envW [bW] [bW] n (msE, Hist.empty) =
      some (msE, ⟨List.replicate n 2, List.replicate n 0,
                  List.replicate n 2, List.replicate n 0⟩) := by
  induction n with
  | zero => rfl
  | succ n ih =>
    rw [runLoop_succ, ih]
    show epochBody envW [bW] [bW] _ = _
    rw [epochBodyW]
    simp [List.replicate_succ']

/-- Witness for C10 at a concrete input. -/
theorem claim_C10_witness :
    runLoop envW [bW] [bW] epochs (msE, Hist.empty) = some s50 ∧
    (runLoop envW [bW] [bW] 0 (msE, Hist.empty) = some (msE, Hist.empty) ∧
     Hist.empty.val_accuracy = [] ∧
     pyMax Hist.empty.val_accuracy = none ∧
     s50.2.val_accuracy.length = 50 ∧
     (pyMax s50.2.val_accuracy).isSome) :=
  ⟨runLoopW 50, claim_C10 envW [bW] [bW] msE s50 (runLoopW 50)⟩

theorem trainBatchesE_append (env : EnvE) (bs1 : List Batch) : ∀ bs2 ms st,
    trainBatchesE env ms st (bs1 ++ bs2) =
      (trainBatchesE env ms st bs1).bind (fun r => trainBatchesE env r.1 r.2 bs2) := by
  induction bs1 with
  | nil => intro bs2 ms st; rfl
  | cons b l ih =>
    intro bs2 ms st
    simp only [List.cons_append, trainBatchesE]
    cases hr : trainBatchStepE env ms st b with
    | error e => rfl
    | ok r => exact ih bs2 r.1 r.2

theorem valBatchesE_append (env : EnvE) (ms : MState) (bs1 : List Batch) : ∀ bs2 st,
    valBatchesE env ms st (bs1 ++ bs2) =
      (valBatchesE env ms st bs1).bind (fun r => valBatchesE env ms r bs2) := by
  induction bs1 with
  | nil => intro bs2 st; rfl
  | cons b l ih =>
    intro bs2 st
    simp only [List.cons_append, valBatchesE]
    cases hr : valBatchStepE env ms st b with
    | error e => rfl
    | ok r => exact ih bs2 r

theorem runLoopE_add (env : EnvE) (tb vb : List Batch) (a : ℕ) : ∀ c s,
    runLoopE env tb vb (a + c) s =
      (runLoopE env tb vb a s).bind (runLoopE env tb vb c) := by
  induction a with
  | zero => intro c s; rw [Nat.zero_add]; rfl
  | succ a ih =>
    intro c s
    rw [Nat.succ_add]
    show (epochBodyE env tb vb s).bind (runLoopE env tb vb (a + c)) =
      ((epochBodyE env tb vb s).bind (runLoopE env tb vb a)).bind (runLoopE env tb vb c)
    cases h : epochBodyE env tb vb s with
    | error e => rfl
    | ok t => exact ih c t

/-- C7: the notebook has no retry, recovery or partial-failure handling:
an exception raised by a library call in any batch of `train()` or
`val()` (after any prefix of successful batches) becomes the result of
the whole epoch call, and an exception in any epoch of the training loop
(after any number of successful epochs) becomes the result of the whole
loop, in each case the very exception raised. -/
theorem claim_C7 (env : EnvE) (e : String) :
    (∀ ms bs1 b bs2 r,
      trainBatchesE env { ms with training := true } Stats.init bs1 = .ok r →
      trainBatchStepE env r.1 r.2 b = .error e →
      trainE env ms (bs1 ++ b :: bs2) = .error e) ∧
    (∀ ms bs1 b bs2 st,
      valBatchesE env { ms with training := false } Stats.init bs1 = .ok st →
      valBatchStepE env { ms with training := false } st b = .error e →
      valE env ms (bs1 ++ b :: bs2) = .error e) ∧
    (∀ tb vb k m s0 s1,
      runLoopE env tb vb k s0 = .ok s1 →
      epochBodyE env tb vb s1 = .error e →
      runLoopE env tb vb (k + (m + 1)) s0 = .error e) := by
  refine ⟨fun ms bs1 b bs2 r h1 h2 => ?_, fun ms bs1 b bs2 st h1 h2 => ?_,
    fun tb vb k m s0 s1 h1 h2 => ?_⟩
  · show (trainBatchesE env { ms with training := true } Stats.init (bs1 ++ b :: bs2)).bind _ =
      _
    rw [trainBatchesE_append, h1]
    show (trainBatchesE env r.1 r.2 (b :: bs2)).bind _ = _
    show ((trainBatchStepE env r.1 r.2 b).bind _).bind _ = _
    rw [h2]
    rfl
  · show (valBatchesE env { ms with training := false } Stats.init (bs1 ++ b :: bs2)).bind _ =
      _
    rw [valBatchesE_append, h1]
    show (valBatchesE env { ms with training := false } st (b :: bs2)).bind _ = _
    show ((valBatchStepE env { ms with training := false } st b).bind _).bind _ = _
    rw [h2]
    rfl
  · rw [runLoopE_add, h1]
    show runLoopE env tb vb (m + 1) s1 = _
    show (epochBodyE env tb vb s1).bind _ = _
    rw [h2]
    rfl

/-- The exception string used in the C7 witness. -/
def eW : String := "RuntimeError"

/-- An environment whose library calls all raise. -/
def envF : EnvE :=
  { fwd := fun _ _ _ => .error eW
    crit := fun _ _ => .error eW
    grad := fun _ _ _ => .error eW }

/-- Witness for C7 at a concrete input. -/
theorem claim_C7_witness :
    (trainBatchesE envF { msW with training := true } Stats.init [] =
       .ok ({ msW with training := true }, Stats.init) ∧
     trainBatchStepE envF { msW with training := true } Stats.init bW = .error eW ∧
     trainE envF msW ([] ++ bW :: []) = .error eW) ∧
    (valBatchesE envF { msW with training := false } Stats.init [] = .ok Stats.init ∧
     valBatchStepE envF { msW with training := false } Stats.init bW = .error eW ∧
     valE envF msW ([] ++ bW :: []) = .error eW) ∧
    (runLoopE envF [bW] [bW] 0 (msW, Hist.empty) = .ok (msW, Hist.empty) ∧
     epochBodyE envF [bW] [bW] (msW, Hist.empty) = .error eW ∧
     runLoopE envF [bW] [bW] (0 + (0 + 1)) (msW, Hist.empty) = .error eW) :=
  ⟨⟨rfl, rfl,
    (claim_C7 envF eW).1 msW [] bW [] ({ msW with training := true }, Stats.init) rfl rfl⟩,
   ⟨rfl, rfl, (claim_C7 envF eW).2.1 msW [] bW [] Stats.init rfl rfl⟩,
   ⟨rfl, rfl,
    (claim_C7 envF eW).2.2 [bW] [bW] 0 0 (msW, Hist.empty) (msW, Hist.empty) rfl rfl⟩⟩

/-- An environment whose backpropagated gradient is identically zero
(e.g. a loss surface flat at the current parameters). -/
def envZ : Env :=
  { fwd := fun _ _ xs => xs.map (fun _ => [0])
    crit := fun _ _ => 1
    grad := fun p _ _ => p.map (fun _ => 0) }

/-- A machine state with one parameter, zero gradient slot and zero
momentum buffer. -/
def msC : MState := ⟨[1], [0], [0], true⟩

/-- Counterexample to C8 as stated: here the trainer performs the full
per-batch sequence — backpropagation followed by an optimizer step, as
the emitted trace shows — yet, the gradient being zero and the momentum
buffer empty of history, no parameter changes at all. -/
theorem claim_C8_counterexample :
    (trainBatchStep envZ msC Stats.init bW).2.2 = trainEvs ∧
    (trainBatchStep envZ msC Stats.init bW).1.params = msC.params := by
  refine ⟨rfl, ?_⟩
  simp only [trainBatchStep, zeroGradOf, backwardOf, sgdStep, envZ, msC, bW,
    Batch.inputs, Batch.labels, lr, momentum]
  norm_num

/-- C8 amended: after one trainer batch step (backpropagation followed by
an SGD update with the notebook's `lr = 0.05`, `momentum = 0.9`), at
least one parameter changes provided the update direction
`momentum * velocity + gradient` is nonzero in some coordinate — in
particular whenever the batch gradient itself is nonzero somewhere and
the momentum buffer is zero there. -/
theorem claim_C8_amended (env : Env) (ms : MState) (st : Stats) (b : Batch)
    (hg : ms.grads.length = ms.params.length)
    (hv : ms.vel.length = ms.params.length)
    (hlen : (env.grad ms.params b.inputs b.labels).length = ms.params.length)
    (i : ℕ) (hi : i < ms.params.length)
    (hnz : momentum * ms.vel.getD i 0 +
      (env.grad ms.params b.inputs b.labels).getD i 0 ≠ 0) :
    (trainBatchStep env ms st b).1.params ≠ ms.params := by
  intro hEq
  have hstep : (trainBatchStep env ms st b).1.params =
      ms.params.zipWith (fun p q => p - lr * q)
        (ms.vel.zipWith (fun v g => momentum * v + g)
          ((ms.grads.map (fun _ => 0)).zipWith (· + ·)
            (env.grad ms.params b.inputs b.labels))) := rfl
  set G := env.grad ms.params b.inputs b.labels with hGdef
  set G2 := (ms.grads.map (fun _ => (0 : ℚ))).zipWith (· + ·) G with hG2def
  set buf := ms.vel.zipWith (fun v g => momentum * v + g) G2 with hbufdef
  have hG2len : G2.length = ms.params.length := by
    rw [hG2def, List.length_zipWith, List.length_map, hg, hlen, Nat.min_self]
  have hbuflen : buf.length = ms.params.length := by
    rw [hbufdef, List.length_zipWith, hv, hG2len, Nat.min_self]
  have hiG : i < G.length := by omega
  have hiG2 : i < G2.length := by omega
  have hibuf : i < buf.length := by omega
  have hiv : i < ms.vel.length := by omega
  have hig : i < ms.grads.length := by omega
  have hG2i : G2.getD i 0 = G.getD i 0 := by
    rw [hG2def]
    rw [List.getD_eq_getElem _ _ hiG2, List.getD_eq_getElem _ _ hiG]
    rw [List.getElem_zipWith]
    rw [List.getElem_map]
    exact zero_add _
  have hbufi : buf.getD i 0 = momentum * ms.vel.getD i 0 + G2.getD i 0 := by
    rw [hbufdef]
    rw [List.getD_eq_getElem _ _ hibuf, List.getD_eq_getElem _ _ hiv,
      List.getD_eq_getElem _ _ hiG2]
    rw [List.getElem_zipWith]
  have hbufnz : buf.getD i 0 ≠ 0 := by
    rw [hbufi, hG2i]
    exact hnz
  have hPlen : (ms.params.zipWith (fun p q => p - lr * q) buf).length = ms.params.length := by
    rw [List.length_zipWith, hbuflen, Nat.min_self]
  have hiP : i < (ms.params.zipWith (fun p q => p - lr * q) buf).length := by omega
  have hPi : (ms.params.zipWith (fun p q => p - lr * q) buf).getD i 0 =
      ms.params.getD i 0 - lr * buf.getD i 0 := by
    rw [List.getD_eq_getElem _ _ hiP, List.getD_eq_getElem _ _ hi,
      List.getD_eq_getElem _ _ hibuf]
    rw [List.getElem_zipWith]
  rw [hstep] at hEq
  have hEqi := congrArg (fun l => l.getD i 0) hEq
  simp only at hEqi
  rw [hPi] at hEqi
  have hzero : lr * buf.getD i 0 = 0 := by linarith
  have : lr ≠ 0 := by norm_num [lr]
  exact hbufnz (by
    rcases mul_eq_zero.mp hzero with h | h
    · exact absurd h this
    · exact h)

/-- An environment whose backpropagated gradient is identically one. -/
def envG : Env :=
  { fwd := fun _ _ xs => xs.map (fun _ => [0])
    crit := fun _ _ => 1
    grad := fun p _ _ => p.map (fun _ => 1) }

/-- Witness for the amended C8 at a concrete input. -/
theorem claim_C8_witness :
    (msC.grads.length = msC.params.length ∧
     msC.vel.length = msC.params.length ∧
     (envG.grad msC.params bW.inputs bW.labels).length = msC.params.length ∧
     0 < msC.params.length ∧
     momentum * msC.vel.getD 0 0 +
       (envG.grad msC.params bW.inputs bW.labels).getD 0 0 ≠ 0) ∧
    (trainBatchStep envG msC Stats.init bW).1.params ≠ msC.params :=
  ⟨⟨rfl, rfl, rfl, Nat.zero_lt_one,
    by norm_num [momentum, envG, msC, bW, Batch.inputs, Batch.labels, List.getD]⟩,
   claim_C8_amended envG msC Stats.init bW rfl rfl rfl 0 Nat.zero_lt_one
     (by norm_num [momentum, envG, msC, bW, Batch.inputs, Batch.labels, List.getD])⟩
